import Mathlib

/-!
Shallow embedding of the provider-adapter and orchestration layer of the
swarmauri-sdk repository, together with proofs about the embedded code.

Embedded source files:
  pkgs/swarmauri/swarmauri/llms/concrete/GroqToolModel.py
  pkgs/swarmauri/swarmauri/llms/concrete/CohereModel.py
  pkgs/swarmauri/swarmauri/llms/concrete/FalAIImgGenModel.py
  pkgs/swarmauri/swarmauri/llms/base/LLMBase.py

Conventions of the embedding:
  - A Conversation is its ordered message history (a Lean list); the
    `add_message` operation of the external Conversation collaborator is
    list append at the end.
  - Python dictionaries coming from JSON are embedded as structures whose
    optional keys are `Option` fields (`none` = key absent).
  - Exceptions are embedded by returning the partially updated state
    together with an `Option`/`Except` error value: the state already
    mutated before the raise is kept, matching Python semantics.
  - The JSON library (json.loads on tool arguments, json.dumps on tool
    results) is external; it is embedded as explicit function parameters
    `jloads`/`jdumps` so that the serialisation step of the code stays
    visible in the definitions.
-/

namespace Swarmauri

/-- Message roles used by the swarmauri message classes
(SystemMessage, HumanMessage, AgentMessage, FunctionMessage). -/
inductive Role where
  | system
  | human
  | assistant
  | tool
  deriving DecidableEq, Repr

/-- A conversation message: `role` and `content` always present,
`name` and `tool_call_id` only on FunctionMessage (tool) entries. -/
structure Message where
  role : Role
  content : String
  name : Option String := none
  tool_call_id : Option String := none
  deriving DecidableEq, Repr

/-- A ToolCallRequest as produced by a backend response:
`tool_call["id"]`, `tool_call["function"]["name"]`,
`tool_call["function"]["arguments"]` (a raw JSON string). -/
structure ToolCall where
  id : String
  name : String
  arguments : String
  deriving DecidableEq, Repr

/-- A Toolkit: a name-indexed registry of invocable tools.  A tool takes
the parsed arguments (type `α`, the result of json.loads on the raw
argument string) and returns a result (type `β`, later serialised by
json.dumps). -/
structure Toolkit (α β : Type) where
  tools : List (String × (α → β))

/-- Modelled from the spec: the Toolkit collaborator's name-indexed lookup
(`Toolkit.get_tool_by_name`, not under src/) — "A Toolkit is a mapping from
name to ToolDefinition; lookup by name must ... fail with a ToolNotFound
condition if absent."  Returns the registered callable, or `none` for the
ToolNotFound failure. -/
def Toolkit.get_tool_by_name (tk : Toolkit α β) (name : String) : Option (α → β) :=
  (tk.tools.find? (fun p => p.1 == name)).map Prod.snd

/-- Failures of the tool-call loop. -/
inductive ToolError where
  | toolNotFound (name : String)
  deriving DecidableEq, Repr

/-- The message object of `tool_response["choices"][0]["message"]` in
GroqToolModel.predict: `content = none` embeds the absence of the
"content" key; `tool_calls` embeds `.get("tool_calls", [])`. -/
structure GroqResponseMessage where
  content : Option String := none
  tool_calls : List ToolCall := []

/-- The tool message built for one resolvable ToolCallRequest
(GroqToolModel.predict: FunctionMessage(content=json.dumps(func_result),
name=func_name, tool_call_id=tool_call["id"])).  The content is the
serialised result of invoking the named tool on the parsed arguments;
for an unresolvable name the content field is irrelevant (the loop
raises before building the message). -/
def toolMsg (tk : Toolkit α β) (jloads : String → α) (jdumps : β → String)
    (tc : ToolCall) : Message :=
  { role := Role.tool
    content := match tk.get_tool_by_name tc.name with
      | some func_call => jdumps (func_call (jloads tc.arguments))
      | none => ""
    name := some tc.name
    tool_call_id := some tc.id }

/-- The tool-call loop of GroqToolModel.predict (lines 150-164), identical
in apredict/stream/astream: for each tool_call in backend order, look the
name up in the toolkit (raises ToolNotFound if absent — messages already
appended remain and the loop stops), invoke it on the json.loads -parsed
arguments, and append a FunctionMessage carrying json.dumps of the result,
the function name and the originating tool-call id. -/
def toolCallLoop (tk : Toolkit α β) (jloads : String → α) (jdumps : β → String) :
    List ToolCall → List Message → List Message × Option ToolError
  | [], conversation => (conversation, none)
  | tc :: rest, conversation =>
    match tk.get_tool_by_name tc.name with
    | none => (conversation, some (ToolError.toolNotFound tc.name))
    | some _ =>
      toolCallLoop tk jloads jdumps rest
        (conversation ++ [toolMsg tk jloads jdumps tc])

/-- The response-handling part of GroqToolModel.predict (lines 142-166):
append one AgentMessage iff the "content" key is present in the response
message, then run the tool-call loop on `.get("tool_calls", [])` (the
`if tool_calls:` guard skips the loop on an empty/falsy list). -/
def groqPredict (tk : Toolkit α β) (jloads : String → α) (jdumps : β → String)
    (resp : GroqResponseMessage) (conversation : List Message) :
    List Message × Option ToolError :=
  let conversation1 :=
    match resp.content with
    | some c => conversation ++ [{ role := Role.assistant, content := c }]
    | none => conversation
  if resp.tool_calls.isEmpty then (conversation1, none)
  else toolCallLoop tk jloads jdumps resp.tool_calls conversation1

/-- The response body of a successful Cohere /chat call as consumed by
CohereModel.predict: `data["text"]` is a required key (KeyError otherwise),
`data.get("usage", {})` is optional. -/
structure CohereResponse where
  text : String

/-- The response-handling part of CohereModel.predict (lines 176-188):
exactly one AgentMessage carrying `data["text"]` is appended. -/
def coherePredict (resp : CohereResponse) (conversation : List Message) :
    List Message :=
  conversation ++ [{ role := Role.assistant, content := resp.text }]

end Swarmauri

namespace Swarmauri

/-- All tool-call names of a response resolve in the toolkit. -/
def Resolvable (tk : Toolkit α β) (calls : List ToolCall) : Prop :=
  ∀ tc ∈ calls, (tk.get_tool_by_name tc.name).isSome

lemma toolCallLoop_resolvable (tk : Toolkit α β) (jloads : String → α)
    (jdumps : β → String) (calls : List ToolCall) (conversation : List Message)
    (h : Resolvable tk calls) :
    toolCallLoop tk jloads jdumps calls conversation =
      (conversation ++ calls.map (toolMsg tk jloads jdumps), none) := by
  induction calls generalizing conversation with
  | nil => simp [toolCallLoop]
  | cons tc rest ih =>
    have htc : (tk.get_tool_by_name tc.name).isSome :=
      h tc (List.mem_cons_self tc rest)
    obtain ⟨f, hf⟩ := Option.isSome_iff_exists.mp htc
    have hrest : Resolvable tk rest := fun x hx => h x (List.mem_cons_of_mem tc hx)
    simp [toolCallLoop, hf, ih _ hrest, List.append_assoc]

/-- C1: for every conversation and every backend response whose tool-call
list is resolvable in the supplied toolkit, the tool-call loop inside
GroqToolModel.predict appends one tool (function) message per
ToolCallRequest, in the order the backend returned the requests, each
message carrying the originating request's id and, as content, the
serialized (json.dumps) result of invoking the named tool on the
json.loads -parsed arguments. -/
theorem groqPredict_resolvable_appends_one_tool_message_per_request
    {α β : Type} (tk : Toolkit α β) (jloads : String → α) (jdumps : β → String)
    (resp : GroqResponseMessage) (conversation : List Message)
    (h : Resolvable tk resp.tool_calls) :
    groqPredict tk jloads jdumps resp conversation =
      ((match resp.content with
        | some c => conversation ++ [{ role := Role.assistant, content := c }]
        | none => conversation) ++
         resp.tool_calls.map (toolMsg tk jloads jdumps), none) ∧
    ∀ tc ∈ resp.tool_calls, ∀ func_call,
      tk.get_tool_by_name tc.name = some func_call →
      toolMsg tk jloads jdumps tc =
        { role := Role.tool
          content := jdumps (func_call (jloads tc.arguments))
          name := some tc.name
          tool_call_id := some tc.id } := by
  constructor
  · unfold groqPredict
    by_cases he : resp.tool_calls.isEmpty
    · rw [List.isEmpty_iff] at he
      simp [he]
    · simp only [he, if_neg, Bool.false_eq_true, not_false_iff, if_false]
      exact toolCallLoop_resolvable tk jloads jdumps resp.tool_calls _ h
  · intro tc _ func_call hf
    simp [toolMsg, hf]

/-- Witness for C1 at a concrete toolkit and response. -/
theorem groqPredict_resolvable_witness :
    groqPredict (α := String) (β := String)
        ⟨[("add", fun s => s ++ "!")]⟩ id id
        { content := some "hi", tool_calls := [⟨"call1", "add", "3"⟩] } [] =
      ([{ role := Role.assistant, content := "hi" },
        { role := Role.tool, content := "3!", name := some "add",
          tool_call_id := some "call1" }], none) := by
  have h := groqPredict_resolvable_appends_one_tool_message_per_request
    (α := String) (β := String) ⟨[("add", fun s => s ++ "!")]⟩ id id
    { content := some "hi", tool_calls := [⟨"call1", "add", "3"⟩] } []
    (by intro tc htc; simp at htc; subst htc; decide)
  rw [h.1]
  rfl

end Swarmauri

namespace Swarmauri

/-- C2: if the k-th ToolCallRequest names a tool absent from the toolkit,
the loop stops with ToolNotFound, appends no message for that request or
any later one, and the tool messages already appended for the first k-1
requests remain in the conversation (no rollback). -/
theorem toolCallLoop_unresolvable_keeps_partial_messages
    {α β : Type} (tk : Toolkit α β) (jloads : String → α) (jdumps : β → String)
    (pre post : List ToolCall) (bad : ToolCall) (conversation : List Message)
    (hpre : Resolvable tk pre)
    (hbad : tk.get_tool_by_name bad.name = none) :
    toolCallLoop tk jloads jdumps (pre ++ bad :: post) conversation =
      (conversation ++ pre.map (toolMsg tk jloads jdumps),
       some (ToolError.toolNotFound bad.name)) := by
  induction pre generalizing conversation with
  | nil => simp [toolCallLoop, hbad]
  | cons tc rest ih =>
    have htc : (tk.get_tool_by_name tc.name).isSome :=
      hpre tc (List.mem_cons_self tc rest)
    obtain ⟨f, hf⟩ := Option.isSome_iff_exists.mp htc
    have hrest : Resolvable tk rest := fun x hx => hpre x (List.mem_cons_of_mem tc hx)
    simp [toolCallLoop, hf, ih _ hrest, List.append_assoc]

/-- Witness for C2: second of two requests unresolvable — the first
request's tool message is kept, the loop fails with ToolNotFound and the
missing request produces no message. -/
theorem toolCallLoop_unresolvable_witness :
    toolCallLoop (α := String) (β := String)
        ⟨[("add", fun s => s ++ "!")]⟩ id id
        [⟨"call1", "add", "3"⟩, ⟨"call2", "missing", "4"⟩]
        [{ role := Role.assistant, content := "hi" }] =
      ([{ role := Role.assistant, content := "hi" },
        { role := Role.tool, content := "3!", name := some "add",
          tool_call_id := some "call1" }],
       some (ToolError.toolNotFound "missing")) := by
  have h := toolCallLoop_unresolvable_keeps_partial_messages
    (α := String) (β := String) ⟨[("add", fun s => s ++ "!")]⟩ id id
    [⟨"call1", "add", "3"⟩] [] ⟨"call2", "missing", "4"⟩
    [{ role := Role.assistant, content := "hi" }]
    (by intro tc htc; simp at htc; subst htc; decide)
    rfl
  rw [show ([⟨"call1", "add", "3"⟩] ++ [(⟨"call2", "missing", "4"⟩ : ToolCall)] :
      List ToolCall) = [⟨"call1", "add", "3"⟩, ⟨"call2", "missing", "4"⟩] from rfl] at h
  rw [h]
  rfl

/-- A toolkit with no tools, for counterexamples. -/
def emptyToolkit : Toolkit String String := ⟨[]⟩

/-- C3 counterexample: a backend response whose message object carries no
"content" key and no tool calls makes GroqToolModel.predict append zero
messages, not one — the assistant append is guarded by
`if "content" in tool_response["choices"][0]["message"]`, so the claim
"appends exactly one assistant message ... regardless of the shape of the
response's message object" fails. -/
theorem groqPredict_no_content_appends_nothing :
    (groqPredict emptyToolkit id id
        { content := none, tool_calls := [] } []).1.length = 0 ∧
    ¬ (groqPredict emptyToolkit id id
        { content := none, tool_calls := [] } []).1.length = 1 := by
  constructor
  · rfl
  · intro h
    simp [groqPredict] at h

/-- C3 amended: when the backend response contains no tool calls,
GroqToolModel.predict appends exactly one assistant message if the
response message object carries a "content" key and zero messages
otherwise, and returns with no error; CohereModel.predict always appends
exactly one assistant message. -/
theorem predict_no_tool_calls_append_count
    {α β : Type} (tk : Toolkit α β) (jloads : String → α) (jdumps : β → String)
    (resp : GroqResponseMessage) (cresp : CohereResponse)
    (conversation : List Message)
    (hnone : resp.tool_calls = []) :
    (groqPredict tk jloads jdumps resp conversation).1.length =
      conversation.length + (if resp.content.isSome then 1 else 0) ∧
    (groqPredict tk jloads jdumps resp conversation).2 = none ∧
    (coherePredict cresp conversation).length = conversation.length + 1 := by
  refine ⟨?_, ?_, ?_⟩
  · cases hc : resp.content <;> simp [groqPredict, hnone, hc]
  · cases hc : resp.content <;> simp [groqPredict, hnone, hc, toolCallLoop]
  · simp [coherePredict]

/-- Witness for C3's amended theorem at a concrete response. -/
theorem predict_no_tool_calls_append_count_witness :
    (groqPredict emptyToolkit id id { content := some "ok", tool_calls := [] }
        []).1.length = 0 + 1 ∧
    (groqPredict emptyToolkit id id { content := some "ok", tool_calls := [] }
        []).2 = none ∧
    (coherePredict ⟨"hello"⟩ []).length = 0 + 1 := by
  have h := predict_no_tool_calls_append_count emptyToolkit id id
    { content := some "ok", tool_calls := [] } ⟨"hello"⟩ [] rfl
  exact h

end Swarmauri

namespace Swarmauri

/-- One entry of the chat_history list built by CohereModel._format_messages:
a dict {"user_name": "Human", "message": ..., "text": ""}. -/
structure ChatEntry where
  user_name : String
  message : String
  text : String
  deriving DecidableEq, Repr

/-- A message as consumed by CohereModel._format_messages: only role and
content are read. -/
structure CohereMsg where
  role : Role
  content : String
  deriving DecidableEq, Repr

/-- Loop state of CohereModel._format_messages: chat_history (list),
system_message and user_message (both initialised to None). -/
structure FormatState where
  chat_history : List ChatEntry
  system_message : Option String
  user_message : Option String
  deriving DecidableEq, Repr

/-- One iteration of the message loop of CohereModel._format_messages
(lines 81-96), with the elif chain kept exactly as written: the fourth
branch tests role == "human" again, although the second branch already
captured every human message, and the third branch rewrites the "text"
field of the last chat_history entry in place. -/
def formatStep (st : FormatState) (msg : CohereMsg) : FormatState :=
  if msg.role = Role.system then
    { st with system_message := some msg.content }
  else if msg.role = Role.human then
    { st with user_message := some msg.content }
  else if msg.role = Role.assistant ∧ 0 < st.chat_history.length then
    { st with chat_history :=
        st.chat_history.dropLast ++
          ((st.chat_history.getLast?.map fun e => [{ e with text := msg.content }]).getD []) }
  else if msg.role = Role.human ∧ st.user_message ≠ some msg.content then
    { st with chat_history :=
        st.chat_history ++ [{ user_name := "Human", message := msg.content, text := "" }] }
  else st

/-- CohereModel._format_messages (lines 62-100): fold the loop over the
messages, then keep only chat_history entries with a truthy (non-empty)
"text" field. -/
def format_messages (messages : List CohereMsg) :
    List ChatEntry × Option String × Option String :=
  let st := messages.foldl formatStep ⟨[], none, none⟩
  (st.chat_history.filter (fun h => h.text ≠ ""), st.system_message, st.user_message)

/-- The content of the last message with the given role, seeded with a
default: the value a variable holding "last seen content for role r" has
after the loop. -/
def lastRoleContent (r : Role) (messages : List CohereMsg) (dflt : Option String) :
    Option String :=
  messages.foldl (fun acc m => if m.role = r then some m.content else acc) dflt

lemma formatStep_fold_empty_history (messages : List CohereMsg)
    (s u : Option String) :
    messages.foldl formatStep ⟨[], s, u⟩ =
      ⟨[], lastRoleContent Role.system messages s,
           lastRoleContent Role.human messages u⟩ := by
  induction messages generalizing s u with
  | nil => rfl
  | cons m rest ih =>
    rw [List.foldl_cons]
    rcases hr : m.role with _ | _ | _ | _ <;>
      simp [formatStep, hr, lastRoleContent, ih, List.foldl_cons]

/-- C10: for every list of input messages, CohereModel._format_messages
returns an empty chat_history list — the human-append branch is shadowed
by the earlier branch matching the same role, so the assistant branch's
length guard never holds and the closing truthiness filter yields [] —
and only the system preamble (last system content) and the latest human
message are extracted. -/
theorem format_messages_empty_chat_history (messages : List CohereMsg) :
    format_messages messages =
      ([], lastRoleContent Role.system messages none,
           lastRoleContent Role.human messages none) := by
  unfold format_messages
  rw [formatStep_fold_empty_history]
  rfl

end Swarmauri

namespace Swarmauri

/-- The raw usage mapping returned by the backend
(`data.get("usage", {})`): every counter may be missing; a
backend-supplied total, if any, is also carried so that ignoring it is
provable. -/
structure RawUsage where
  input_tokens : Option Nat := none
  output_tokens : Option Nat := none
  total_tokens : Option Nat := none
  deriving DecidableEq, Repr

/-- The UsageData record built by CohereModel._prepare_usage_data.
Durations are embedded as exact rationals. -/
structure UsageData where
  prompt_tokens : Nat
  completion_tokens : Nat
  total_tokens : Nat
  prompt_time : ℚ
  completion_time : ℚ
  total_time : ℚ
  deriving DecidableEq, Repr

/-- CohereModel._prepare_usage_data (lines 102-133): default missing
counters to zero with `.get(..., 0)` and recompute both totals from the
parts (the backend's own total field is never read). -/
def prepare_usage_data (usage_data : RawUsage)
    (prompt_time completion_time : ℚ) : UsageData :=
  let total_time := prompt_time + completion_time
  let input_tokens := usage_data.input_tokens.getD 0
  let output_tokens := usage_data.output_tokens.getD 0
  let total_tokens := input_tokens + output_tokens
  { prompt_tokens := input_tokens
    completion_tokens := output_tokens
    total_tokens := total_tokens
    prompt_time := prompt_time
    completion_time := completion_time
    total_time := total_time }

/-- C7: for every raw backend usage mapping (missing fields included) and
every pair of non-negative elapsed times, the produced usage record
satisfies total_tokens = prompt_tokens + completion_tokens and
total_time = prompt_time + completion_time; a missing counter defaults to
zero, and the totals are recomputed — changing the backend-supplied total
never changes the result. -/
theorem prepare_usage_data_invariants (usage_data : RawUsage)
    (prompt_time completion_time : ℚ)
    (hpt : 0 ≤ prompt_time) (hct : 0 ≤ completion_time) :
    (prepare_usage_data usage_data prompt_time completion_time).total_tokens =
      (prepare_usage_data usage_data prompt_time completion_time).prompt_tokens +
      (prepare_usage_data usage_data prompt_time completion_time).completion_tokens ∧
    (prepare_usage_data usage_data prompt_time completion_time).total_time =
      (prepare_usage_data usage_data prompt_time completion_time).prompt_time +
      (prepare_usage_data usage_data prompt_time completion_time).completion_time ∧
    0 ≤ (prepare_usage_data usage_data prompt_time completion_time).total_time ∧
    (usage_data.input_tokens = none →
      (prepare_usage_data usage_data prompt_time completion_time).prompt_tokens = 0) ∧
    (usage_data.output_tokens = none →
      (prepare_usage_data usage_data prompt_time completion_time).completion_tokens = 0) ∧
    ∀ t : Option Nat,
      prepare_usage_data { usage_data with total_tokens := t }
          prompt_time completion_time =
        prepare_usage_data usage_data prompt_time completion_time := by
  refine ⟨rfl, rfl, add_nonneg hpt hct, ?_, ?_, ?_⟩
  · intro h; simp [prepare_usage_data, h]
  · intro h; simp [prepare_usage_data, h]
  · intro t; rfl

/-- Witness for C7 at an all-missing usage mapping and zero times. -/
theorem prepare_usage_data_invariants_witness :
    (0 : ℚ) ≤ 0 ∧
    (prepare_usage_data {} 0 0).total_tokens =
      (prepare_usage_data {} 0 0).prompt_tokens +
      (prepare_usage_data {} 0 0).completion_tokens ∧
    (prepare_usage_data {} 0 0).total_time =
      (prepare_usage_data {} 0 0).prompt_time +
      (prepare_usage_data {} 0 0).completion_time := by
  have h := prepare_usage_data_invariants {} 0 0 le_rfl le_rfl
  exact ⟨le_rfl, h.1, h.2.1⟩

end Swarmauri

namespace Swarmauri

/-- One line of the Groq SSE stream as consumed by GroqToolModel.stream
(lines 315-325), classified by the branch the code takes after the
`line.replace` / json.loads step:
  - blank: json_str is falsy, the `if json_str:` guard skips it;
  - malformed: json.loads raises JSONDecodeError, `except ... pass`;
  - delta: a parsed chunk whose choices[0].delta is truthy and carries
    "content";
  - emptyDelta: a parsed chunk whose delta dict is falsy, skipped. -/
inductive GroqStreamLine where
  | blank
  | malformed (raw : String)
  | delta (content : String)
  | emptyDelta
  deriving DecidableEq, Repr

/-- The line loop of GroqToolModel.stream: returns the fragments yielded
(in order), which are also accumulated into message_content. -/
def groqStreamFold : List GroqStreamLine → List String → List String
  | [], acc => acc
  | GroqStreamLine.blank :: rest, acc => groqStreamFold rest acc
  | GroqStreamLine.malformed _ :: rest, acc => groqStreamFold rest acc
  | GroqStreamLine.delta c :: rest, acc => groqStreamFold rest (acc ++ [c])
  | GroqStreamLine.emptyDelta :: rest, acc => groqStreamFold rest acc

/-- GroqToolModel.stream after the line loop (line 327): the yielded
fragments plus the conversation with one AgentMessage holding their
concatenation appended. -/
def groqStream (lines : List GroqStreamLine) (conversation : List Message) :
    List String × List Message :=
  let fragments := groqStreamFold lines []
  (fragments,
   conversation ++ [{ role := Role.assistant, content := String.join fragments }])

/-- One line of the Cohere stream as consumed by CohereModel.stream
(lines 293-301), classified by branch:
  - blank: falsy line, skipped by `if line:`;
  - malformed: json.loads raises JSONDecodeError — there is no try/except
    here, so the exception propagates out of the generator;
  - text: chunk carrying "text" (yielded and collected);
  - usage: chunk carrying "usage" but no "text";
  - other: parsed chunk with neither key. -/
inductive CohereStreamLine where
  | blank
  | malformed (raw : String)
  | text (content : String)
  | usage (u : RawUsage)
  | other
  deriving DecidableEq, Repr

/-- The line loop of CohereModel.stream: on a malformed line the
JSONDecodeError aborts the loop, carrying off the fragments already
yielded (Except.error); otherwise the collected fragments and the last
usage chunk are returned. -/
def cohereStreamFold : List CohereStreamLine → List String → RawUsage →
    Except (List String) (List String × RawUsage)
  | [], acc, u => Except.ok (acc, u)
  | CohereStreamLine.blank :: rest, acc, u => cohereStreamFold rest acc u
  | CohereStreamLine.malformed _ :: _, acc, _ => Except.error acc
  | CohereStreamLine.text c :: rest, acc, u => cohereStreamFold rest (acc ++ [c]) u
  | CohereStreamLine.usage u2 :: rest, acc, _ => cohereStreamFold rest acc u2
  | CohereStreamLine.other :: rest, acc, u => cohereStreamFold rest acc u

/-- CohereModel.stream (lines 283-308): run the line loop; on success
join the fragments, prepare usage and append one AgentMessage; on a
JSONDecodeError nothing is appended and the error escapes to the caller
with only the fragments yielded before the bad line delivered. -/
def cohereStream (lines : List CohereStreamLine)
    (prompt_time completion_time : ℚ) (conversation : List Message) :
    Except (List String) (List String × UsageData × List Message) :=
  match cohereStreamFold lines [] {} with
  | Except.error yielded => Except.error yielded
  | Except.ok (fragments, usage_data) =>
    Except.ok (fragments,
      prepare_usage_data usage_data prompt_time completion_time,
      conversation ++
        [{ role := Role.assistant, content := String.join fragments }])

/-- C8 counterexample: in CohereModel.stream a non-JSON-parseable line is
not skipped — json.loads is not wrapped in try/except there, so the parse
error aborts the stream, the fragment after the bad line is never yielded
and no assistant message is appended.  Concretely, the stream
[text "a", malformed, text "b"] errors out carrying only ["a"]. -/
theorem cohereStream_malformed_line_aborts :
    cohereStream
        [CohereStreamLine.text "a", CohereStreamLine.malformed "oops",
         CohereStreamLine.text "b"] 0 0 [] =
      Except.error ["a"] ∧
    ∀ r, cohereStream
        [CohereStreamLine.text "a", CohereStreamLine.malformed "oops",
         CohereStreamLine.text "b"] 0 0 [] ≠ Except.ok r := by
  refine ⟨rfl, ?_⟩
  intro r h
  rw [show cohereStream
      [CohereStreamLine.text "a", CohereStreamLine.malformed "oops",
       CohereStreamLine.text "b"] 0 0 [] = Except.error ["a"] from rfl] at h
  exact Except.noConfusion h

lemma groqStreamFold_skips_malformed (xs ys : List GroqStreamLine)
    (raw : String) (acc : List String) :
    groqStreamFold (xs ++ GroqStreamLine.malformed raw :: ys) acc =
      groqStreamFold (xs ++ ys) acc := by
  induction xs generalizing acc with
  | nil => rfl
  | cons x rest ih => cases x <;> simp [groqStreamFold, ih]

/-- C8 amended: in GroqToolModel.stream every malformed
(non-JSON-parseable) line is skipped silently — deleting it from the
stream changes neither the yielded fragments nor the final conversation,
so all well-formed fragments before and after it are still yielded — and
the appended assistant message's content is the concatenation of exactly
those fragments; CohereModel.stream, by contrast, aborts on a malformed
line (see the counterexample). -/
theorem groqStream_skips_malformed_lines
    (xs ys : List GroqStreamLine) (raw : String) (conversation : List Message) :
    groqStream (xs ++ GroqStreamLine.malformed raw :: ys) conversation =
      groqStream (xs ++ ys) conversation ∧
    (groqStream (xs ++ ys) conversation).2 =
      conversation ++
        [{ role := Role.assistant
           content := String.join (groqStreamFold (xs ++ ys) []) }] := by
  constructor
  · unfold groqStream
    rw [groqStreamFold_skips_malformed]
  · rfl

end Swarmauri

namespace Swarmauri

/-- The "status" field of a FalAI status response as discriminated by
FalAIImgGenModel._wait_for_completion: "COMPLETED", "IN_QUEUE",
"IN_PROGRESS", or anything else. -/
inductive FalStatus where
  | completed
  | inQueue
  | inProgress
  | other (s : String)
  deriving DecidableEq, Repr

/-- A status is non-terminal when the code keeps polling on it. -/
def FalStatus.nonterminal (s : FalStatus) : Prop :=
  s = FalStatus.inQueue ∨ s = FalStatus.inProgress

instance (s : FalStatus) : Decidable s.nonterminal := by
  unfold FalStatus.nonterminal; infer_instance

/-- Outcome of FalAIImgGenModel._wait_for_completion:
the fetched result, TimeoutError carrying the request id in its message,
or RuntimeError on an unexpected status. -/
inductive PollOutcome (ρ : Type) where
  | result (r : ρ)
  | timedOut (request_id : String)
  | unexpected (s : String)
  deriving DecidableEq, Repr

/-- Counts of the externally visible poller actions: status-endpoint
GETs, result-endpoint GETs, and time.sleep(retry_delay) calls. -/
structure PollTrace where
  status_checks : Nat
  result_fetches : Nat
  sleeps : Nat
  deriving DecidableEq, Repr

/-- The polling loop of FalAIImgGenModel._wait_for_completion
(lines 188-199; _async_wait_for_completion is identical up to the
suspension mechanism).  `polls i` is the status returned by the i-th
status check, `get_result` the payload of the result endpoint, `fuel`
the remaining loop iterations (starting at max_retries): each iteration
checks the status once, returns the fetched result on COMPLETED, sleeps
and retries on IN_QUEUE/IN_PROGRESS, raises RuntimeError otherwise; an
exhausted loop raises TimeoutError carrying the request id. -/
def waitForCompletionAux (polls : Nat → FalStatus) (get_result : ρ)
    (request_id : String) :
    Nat → Nat → PollTrace → PollOutcome ρ × PollTrace
  | 0, _, tr => (PollOutcome.timedOut request_id, tr)
  | fuel + 1, i, tr =>
    let tr1 := { tr with status_checks := tr.status_checks + 1 }
    match polls i with
    | FalStatus.completed =>
      (PollOutcome.result get_result,
       { tr1 with result_fetches := tr1.result_fetches + 1 })
    | FalStatus.inQueue =>
      waitForCompletionAux polls get_result request_id fuel (i + 1)
        { tr1 with sleeps := tr1.sleeps + 1 }
    | FalStatus.inProgress =>
      waitForCompletionAux polls get_result request_id fuel (i + 1)
        { tr1 with sleeps := tr1.sleeps + 1 }
    | FalStatus.other s => (PollOutcome.unexpected s, tr1)

/-- FalAIImgGenModel._wait_for_completion: run the loop for max_retries
iterations from a fresh trace. -/
def wait_for_completion (polls : Nat → FalStatus) (get_result : ρ)
    (request_id : String) (max_retries : Nat) : PollOutcome ρ × PollTrace :=
  waitForCompletionAux polls get_result request_id max_retries 0 ⟨0, 0, 0⟩

/-- The Field(default=60) of FalAIImgGenModel.max_retries. -/
def max_retries_default : Nat := 60

lemma waitForCompletionAux_all_nonterminal (polls : Nat → FalStatus)
    (get_result : ρ) (request_id : String) (fuel i : Nat) (tr : PollTrace)
    (h : ∀ j, j < fuel → (polls (i + j)).nonterminal) :
    waitForCompletionAux polls get_result request_id fuel i tr =
      (PollOutcome.timedOut request_id,
       ⟨tr.status_checks + fuel, tr.result_fetches, tr.sleeps + fuel⟩) := by
  induction fuel generalizing i tr with
  | zero => rfl
  | succ n ih =>
    have h0 : (polls i).nonterminal := by
      have := h 0 (Nat.succ_pos n)
      simpa using this
    have hrest : ∀ j, j < n → (polls (i + 1 + j)).nonterminal := by
      intro j hj
      have := h (j + 1) (Nat.succ_lt_succ hj)
      simpa [Nat.add_assoc, Nat.add_comm 1 j] using this
    rcases h0 with h0 | h0 <;>
      simp [waitForCompletionAux, h0, ih _ _ hrest,
        Nat.add_assoc, Nat.add_comm 1 n]

lemma waitForCompletionAux_completed_at (polls : Nat → FalStatus)
    (get_result : ρ) (request_id : String) (fuel i k : Nat) (tr : PollTrace)
    (hk : k < fuel)
    (hpre : ∀ j, j < k → (polls (i + j)).nonterminal)
    (hc : polls (i + k) = FalStatus.completed) :
    waitForCompletionAux polls get_result request_id fuel i tr =
      (PollOutcome.result get_result,
       ⟨tr.status_checks + k + 1, tr.result_fetches + 1, tr.sleeps + k⟩) := by
  induction k generalizing fuel i tr with
  | zero =>
    obtain ⟨n, rfl⟩ := Nat.exists_eq_succ_of_ne_zero (Nat.pos_iff_ne_zero.mp hk)
    simp only [Nat.add_zero] at hc
    simp [waitForCompletionAux, hc]
  | succ m ih =>
    obtain ⟨n, rfl⟩ := Nat.exists_eq_succ_of_ne_zero
      (Nat.pos_iff_ne_zero.mp (Nat.lt_of_le_of_lt (Nat.zero_le _) hk))
    have h0 : (polls i).nonterminal := by
      have := hpre 0 (Nat.succ_pos m)
      simpa using this
    have hrest : ∀ j, j < m → (polls (i + 1 + j)).nonterminal := by
      intro j hj
      have := hpre (j + 1) (Nat.succ_lt_succ hj)
      simpa [Nat.add_assoc, Nat.add_comm 1 j] using this
    have hc1 : polls (i + 1 + m) = FalStatus.completed := by
      simpa [Nat.add_assoc, Nat.add_comm 1 m] using hc
    have hmn : m < n := Nat.lt_of_succ_lt_succ hk
    rcases h0 with h0 | h0 <;>
      simp [waitForCompletionAux, h0, ih n (i + 1) _ hmn hrest hc1,
        Nat.add_assoc, Nat.add_comm 1 m]

/-- C4: (a) when every one of the first max_retries status checks reports
a non-terminal status (IN_QUEUE or IN_PROGRESS), the poller performs
exactly max_retries status checks, sleeping retry_delay after each
non-terminal check, then fails with the TimeoutError carrying the
request id, and the result endpoint is never fetched; (b) a poll
observing COMPLETED instead fetches the result (exactly one result GET)
and returns it; (c) the max_retries field defaults to 60. -/
theorem wait_for_completion_bounded_polling {ρ : Type}
    (polls : Nat → FalStatus) (get_result : ρ) (request_id : String)
    (max_retries : Nat) :
    ((∀ i, i < max_retries → (polls i).nonterminal) →
      wait_for_completion polls get_result request_id max_retries =
        (PollOutcome.timedOut request_id, ⟨max_retries, 0, max_retries⟩)) ∧
    (∀ k, k < max_retries → (∀ i, i < k → (polls i).nonterminal) →
      polls k = FalStatus.completed →
      wait_for_completion polls get_result request_id max_retries =
        (PollOutcome.result get_result, ⟨k + 1, 1, k⟩)) ∧
    max_retries_default = 60 := by
  refine ⟨?_, ?_, rfl⟩
  · intro h
    have := waitForCompletionAux_all_nonterminal polls get_result request_id
      max_retries 0 ⟨0, 0, 0⟩ (by intro j hj; simpa using h j hj)
    simpa [wait_for_completion] using this
  · intro k hk hpre hc
    have := waitForCompletionAux_completed_at polls get_result request_id
      max_retries 0 k ⟨0, 0, 0⟩ hk
      (by intro j hj; simpa using hpre j hj) (by simpa using hc)
    simpa [wait_for_completion] using this

/-- Witness for C4: a job stuck IN_PROGRESS for 3 retries times out after
exactly 3 status checks with no result fetch, and the poll sequence
[IN_PROGRESS, IN_PROGRESS, COMPLETED] returns the result after exactly 3
status checks and one result fetch. -/
theorem wait_for_completion_bounded_polling_witness :
    wait_for_completion (fun _ => FalStatus.inProgress) "img" "req-1" 3 =
      (PollOutcome.timedOut "req-1", ⟨3, 0, 3⟩) ∧
    wait_for_completion
        (fun i => if i < 2 then FalStatus.inProgress else FalStatus.completed)
        "img" "req-2" 60 =
      (PollOutcome.result "img", ⟨3, 1, 2⟩) := by
  constructor
  · exact (wait_for_completion_bounded_polling
      (fun _ => FalStatus.inProgress) "img" "req-1" 3).1
      (by intro i _; right; rfl)
  · exact ((wait_for_completion_bounded_polling
      (fun i => if i < 2 then FalStatus.inProgress else FalStatus.completed)
      "img" "req-2" 60).2.1) 2 (by decide)
      (by intro i hi; right; simp [hi])
      (by simp)

end Swarmauri

namespace Swarmauri

/-- State of one per-conversation task in CohereModel.abatch
(process_conversation): not yet admitted by the semaphore, currently
awaiting apredict inside `async with semaphore`, finished successfully,
or finished by raising. -/
inductive TaskState where
  | notStarted
  | running
  | done
  | failed
  deriving DecidableEq, Repr

/-- Interleaving state of one abatch call (CohereModel.abatch lines
413-422, GroqToolModel.abatch is identical): the per-task states aligned
with the input list, the number of free semaphore slots
(asyncio.Semaphore(max_concurrent)), and the result slot asyncio.gather
keeps for each task position. -/
structure BatchState (ρ : Type) where
  tasks : List TaskState
  sem : Nat
  slots : List (Option ρ)

/-- Number of tasks currently inside the semaphore-guarded region. -/
def countRunning : List TaskState → Nat
  | [] => 0
  | t :: rest => (if t = TaskState.running then 1 else 0) + countRunning rest

/-- Initial state of an abatch call over n conversations with
max_concurrent = C: no task started, all C slots free, no results. -/
def batchInit (ρ : Type) (n C : Nat) : BatchState ρ :=
  ⟨List.replicate n TaskState.notStarted, C, List.replicate n none⟩

/-- One scheduling step of CohereModel.abatch, with `f` the per-item
apredict call (abstract: a pure conversation transformer):
  - start: `async with semaphore` admits task i only when a free slot
    exists, consuming it;
  - finish: apredict for task i returns; `async with` releases the slot
    and asyncio.gather stores the result at position i;
  - fail: apredict for task i raises; `async with` releases the slot on
    this exit path too, and no result is stored. -/
inductive BatchStep (f : γ → ρ) (conversations : List γ) :
    BatchState ρ → BatchState ρ → Prop
  | start (s : BatchState ρ) (i : Nat)
      (htask : s.tasks[i]? = some TaskState.notStarted)
      (hsem : 0 < s.sem) :
      BatchStep f conversations s
        ⟨s.tasks.set i TaskState.running, s.sem - 1, s.slots⟩
  | finish (s : BatchState ρ) (i : Nat)
      (htask : s.tasks[i]? = some TaskState.running) :
      BatchStep f conversations s
        ⟨s.tasks.set i TaskState.done, s.sem + 1,
         s.slots.set i (conversations[i]?.map f)⟩
  | fail (s : BatchState ρ) (i : Nat)
      (htask : s.tasks[i]? = some TaskState.running) :
      BatchStep f conversations s
        ⟨s.tasks.set i TaskState.failed, s.sem + 1, s.slots⟩

/-- States reachable during one abatch call over `conversations` with
max_concurrent = C, under every interleaving of the task steps. -/
inductive BatchReachable (f : γ → ρ) (conversations : List γ) (C : Nat) :
    BatchState ρ → Prop
  | init : BatchReachable f conversations C (batchInit ρ conversations.length C)
  | step {s s2 : BatchState ρ} : BatchReachable f conversations C s →
      BatchStep f conversations s s2 → BatchReachable f conversations C s2

/-- Inductive invariant of the abatch interleaving: lengths are
preserved, running tasks and free slots always account for all C
semaphore slots, and a result slot is filled exactly for the tasks that
finished successfully, with the apredict result of their own input. -/
def BatchInv (f : γ → ρ) (conversations : List γ) (C : Nat)
    (s : BatchState ρ) : Prop :=
  s.tasks.length = conversations.length ∧
  s.slots.length = conversations.length ∧
  countRunning s.tasks + s.sem = C ∧
  ∀ i, i < conversations.length →
    (s.tasks[i]? = some TaskState.done →
      s.slots[i]? = some (conversations[i]?.map f)) ∧
    (s.tasks[i]? ≠ some TaskState.done → s.slots[i]? = some none)

lemma countRunning_set (l : List TaskState) (i : Nat) (a b : TaskState)
    (h : l[i]? = some b) :
    countRunning (l.set i a) + (if b = TaskState.running then 1 else 0) =
      countRunning l + (if a = TaskState.running then 1 else 0) := by
  induction l generalizing i with
  | nil => simp at h
  | cons t rest ih =>
    cases i with
    | zero =>
      simp only [List.getElem?_cons_zero, Option.some_inj] at h
      subst h
      simp only [List.set_cons_zero, countRunning]
      omega
    | succ j =>
      simp only [List.getElem?_cons_succ] at h
      simp only [List.set_cons_succ, countRunning]
      have := ih j h
      omega

lemma countRunning_replicate_notStarted (n : Nat) :
    countRunning (List.replicate n TaskState.notStarted) = 0 := by
  induction n with
  | zero => rfl
  | succ m ih => simp [List.replicate_succ, countRunning, ih]

lemma batchInv_init (f : γ → ρ) (conversations : List γ) (C : Nat) :
    BatchInv f conversations C (batchInit ρ conversations.length C) := by
  refine ⟨by simp [batchInit], by simp [batchInit], ?_, ?_⟩
  · simp [batchInit, countRunning_replicate_notStarted]
  · intro i hi
    constructor
    · intro hdone
      rw [batchInit] at hdone
      simp only [List.getElem?_replicate] at hdone
      split at hdone
      · exact absurd (Option.some_inj.mp hdone) (by decide)
      · exact absurd hdone (by simp)
    · intro _
      simp [batchInit, List.getElem?_replicate, hi]

lemma batchInv_step (f : γ → ρ) (conversations : List γ) (C : Nat)
    {s s2 : BatchState ρ} (hinv : BatchInv f conversations C s)
    (hstep : BatchStep f conversations s s2) :
    BatchInv f conversations C s2 := by
  obtain ⟨hlt, hls, hsem, hslot⟩ := hinv
  cases hstep with
  | start i htask hsem0 =>
    have hcount := countRunning_set s.tasks i TaskState.running _ htask
    refine ⟨by simpa using hlt, hls, by simp at hcount; dsimp only; omega, ?_⟩
    intro j hj
    by_cases hij : i = j
    · subst hij
      have hlen : i < s.tasks.length := by
        rw [hlt]; exact hj
      constructor
      · intro hdone
        rw [List.getElem?_set_eq_of_lt _ hlen] at hdone
        exact absurd (Option.some_inj.mp hdone) (by decide)
      · intro _
        have := (hslot i hj).2 (by rw [htask]; simp)
        simpa using this
    · constructor
      · intro hdone
        rw [List.getElem?_set_ne hij] at hdone
        exact (hslot j hj).1 hdone
      · intro hne
        rw [List.getElem?_set_ne hij] at hne
        exact (hslot j hj).2 hne
  | finish i htask =>
    have hcount := countRunning_set s.tasks i TaskState.done _ htask
    have hlen : i < s.tasks.length := by
      by_contra hge
      rw [List.getElem?_eq_none (Nat.le_of_not_lt hge)] at htask
      exact Option.noConfusion htask
    have hlens : i < s.slots.length := by
      rw [hls, ← hlt]; exact hlen
    refine ⟨by simpa using hlt, by simpa using hls, by simp at hcount; dsimp only; omega, ?_⟩
    intro j hj
    by_cases hij : i = j
    · subst hij
      constructor
      · intro _
        rw [List.getElem?_set_eq_of_lt _ hlens]
      · intro hne
        rw [List.getElem?_set_eq_of_lt _ hlen] at hne
        exact absurd rfl hne
    · constructor
      · intro hdone
        rw [List.getElem?_set_ne hij] at hdone
        rw [List.getElem?_set_ne hij]
        exact (hslot j hj).1 hdone
      · intro hne
        rw [List.getElem?_set_ne hij] at hne
        rw [List.getElem?_set_ne hij]
        exact (hslot j hj).2 hne
  | fail i htask =>
    have hcount := countRunning_set s.tasks i TaskState.failed _ htask
    have hlen : i < s.tasks.length := by
      by_contra hge
      rw [List.getElem?_eq_none (Nat.le_of_not_lt hge)] at htask
      exact Option.noConfusion htask
    refine ⟨by simpa using hlt, hls, by simp at hcount; dsimp only; omega, ?_⟩
    intro j hj
    by_cases hij : i = j
    · subst hij
      constructor
      · intro hdone
        rw [List.getElem?_set_eq_of_lt _ hlen] at hdone
        exact absurd (Option.some_inj.mp hdone) (by decide)
      · intro _
        exact (hslot i hj).2 (by rw [htask]; simp)
    · constructor
      · intro hdone
        rw [List.getElem?_set_ne hij] at hdone
        exact (hslot j hj).1 hdone
      · intro hne
        rw [List.getElem?_set_ne hij] at hne
        exact (hslot j hj).2 hne

lemma batchInv_reachable (f : γ → ρ) (conversations : List γ) (C : Nat)
    {s : BatchState ρ} (h : BatchReachable f conversations C s) :
    BatchInv f conversations C s := by
  induction h with
  | init => exact batchInv_init f conversations C
  | step _ hstep ih => exact batchInv_step f conversations C ih hstep

end Swarmauri

namespace Swarmauri

/-- C6: during one abatch call over N conversations with concurrency
ceiling max_concurrent = C (C >= 1), in every reachable interleaving
state at most C per-item apredict calls are in flight, the running tasks
and free semaphore slots always account for exactly the C slots, and
from any state a running item can release its slot through the success
path and through the failure path alike (`async with semaphore` releases
on both exits). -/
theorem abatch_never_exceeds_max_concurrent {γ ρ : Type}
    (f : γ → ρ) (conversations : List γ) (C : Nat) (_hC : 1 ≤ C)
    (s : BatchState ρ) (h : BatchReachable f conversations C s) :
    countRunning s.tasks ≤ C ∧
    countRunning s.tasks + s.sem = C ∧
    ∀ i, s.tasks[i]? = some TaskState.running →
      BatchStep f conversations s
        ⟨s.tasks.set i TaskState.done, s.sem + 1,
         s.slots.set i (conversations[i]?.map f)⟩ ∧
      BatchStep f conversations s
        ⟨s.tasks.set i TaskState.failed, s.sem + 1, s.slots⟩ := by
  have hinv := batchInv_reachable f conversations C h
  obtain ⟨_, _, hsem, _⟩ := hinv
  refine ⟨by omega, hsem, ?_⟩
  intro i htask
  exact ⟨BatchStep.finish s i htask, BatchStep.fail s i htask⟩

/-- Witness for C6: with two conversations and C = 2, after admitting
task 0 exactly one task is in flight, within the ceiling, and one slot
stays free. -/
theorem abatch_never_exceeds_max_concurrent_witness :
    countRunning [TaskState.running, TaskState.notStarted] ≤ 2 ∧
    countRunning [TaskState.running, TaskState.notStarted] + 1 = 2 := by
  have hreach : BatchReachable (fun n : Nat => n + 1) [5, 6] 2
      (⟨[TaskState.running, TaskState.notStarted], 1,
        [none, none]⟩ : BatchState Nat) :=
    BatchReachable.step BatchReachable.init
      (BatchStep.start (batchInit Nat 2 2) 0 rfl (by decide))
  have h := abatch_never_exceeds_max_concurrent (fun n : Nat => n + 1)
    [5, 6] 2 (by decide)
    (⟨[TaskState.running, TaskState.notStarted], 1, [none, none]⟩ : BatchState Nat)
    hreach
  exact ⟨h.1, h.2.1⟩

/-- C5: for every list of N conversations and every interleaving of the
abatch tasks that ends with all items finished successfully, the result
list asyncio.gather assembles has length N and its i-th slot holds the
apredict result of the i-th input conversation, independent of the order
in which the concurrent calls completed. -/
theorem abatch_output_matches_input_order {γ ρ : Type}
    (f : γ → ρ) (conversations : List γ) (C : Nat)
    (s : BatchState ρ) (h : BatchReachable f conversations C s)
    (hdone : ∀ i, i < conversations.length →
      s.tasks[i]? = some TaskState.done) :
    s.slots = conversations.map (fun c => some (f c)) ∧
    s.slots.length = conversations.length := by
  have hinv := batchInv_reachable f conversations C h
  obtain ⟨hlt, hls, _, hslot⟩ := hinv
  have hmap : s.slots = conversations.map (fun c => some (f c)) := by
    apply List.ext_getElem?
    intro n
    by_cases hn : n < conversations.length
    · rw [(hslot n hn).1 (hdone n hn), List.getElem?_map,
        List.getElem?_eq_getElem hn]
      rfl
    · rw [List.getElem?_eq_none (by omega : s.slots.length ≤ n),
        List.getElem?_eq_none (by simp; omega)]
  exact ⟨hmap, by rw [hmap, List.length_map]⟩

/-- Witness for C5: one conversation, C = 1; the interleaving
start-then-finish reaches the all-done state whose slot list is the
mapped input. -/
theorem abatch_output_matches_input_order_witness :
    ([some 6] : List (Option Nat)) = [5].map (fun c => some (c + 1)) ∧
    ([some 6] : List (Option Nat)).length = [5].length := by
  have hr1 : BatchReachable (fun n : Nat => n + 1) [5] 1
      (⟨[TaskState.running], 0, [none]⟩ : BatchState Nat) :=
    BatchReachable.step BatchReachable.init
      (BatchStep.start (batchInit Nat 1 1) 0 rfl (by decide))
  have hr2 : BatchReachable (fun n : Nat => n + 1) [5] 1
      (⟨[TaskState.done], 1, [some 6]⟩ : BatchState Nat) :=
    BatchReachable.step hr1
      (BatchStep.finish (⟨[TaskState.running], 0, [none]⟩ : BatchState Nat) 0 rfl)
  exact abatch_output_matches_input_order (fun n : Nat => n + 1) [5] 1
    (⟨[TaskState.done], 1, [some 6]⟩ : BatchState Nat) hr2
    (by intro i hi; rw [Nat.lt_one_iff.mp hi]; rfl)

end Swarmauri

namespace Swarmauri

/-- Construction-time failures: pydantic's missing-required-field error
for the credential, and the ValueError raised for a disallowed model
name. -/
inductive ConfigError where
  | missingCredential
  | invalidModelName (name : String)
  deriving DecidableEq, Repr

/-- LLMBase._validate_name_in_allowed_models (lines 14-23):
`if name and name not in allowed_models: raise ValueError(...)`.
The truthiness guard means a None or empty name skips the membership
check entirely. -/
def validate_name_in_allowed_models (name : Option String)
    (allowed_models : List String) : Except ConfigError Unit :=
  match name with
  | none => Except.ok ()
  | some n =>
    if n = "" then Except.ok ()
    else if n ∈ allowed_models then Except.ok ()
    else Except.error (ConfigError.invalidModelName n)

/-- The keyword arguments a caller passes when constructing a
GroqToolModel or CohereModel: `none` means the argument was not
supplied. -/
structure AdapterData where
  api_key : Option String := none
  name : Option String := none

/-- allowed_models of GroqToolModel (lines 41-52). -/
def groq_allowed_models : List String :=
  ["llama3-8b-8192", "llama3-70b-8192",
   "llama3-groq-70b-8192-tool-use-preview",
   "llama3-groq-8b-8192-tool-use-preview",
   "llama-3.1-70b-versatile", "llama-3.1-8b-instant"]

/-- The class default of GroqToolModel.name (line 53). -/
def groq_default_name : String := "llama3-groq-70b-8192-tool-use-preview"

/-- allowed_models of CohereModel (lines 35-42). -/
def cohere_allowed_models : List String :=
  ["command", "command-r-plus-08-2024", "command-r-plus-04-2024",
   "command-r-03-2024", "command-r-08-2024", "command-light"]

/-- The class default of CohereModel.name (line 43). -/
def cohere_default_name : String := "command"

/-- Construction of GroqToolModel/CohereModel: pydantic first rejects a
missing api_key (a required `str` field), then the LLMBase model
validator runs on the resolved name (the supplied one, or the class
default).  On success the adapter holds its name and credential. -/
def constructLLM (default_name : String) (allowed_models : List String)
    (data : AdapterData) : Except ConfigError (String × String) :=
  match data.api_key with
  | none => Except.error ConfigError.missingCredential
  | some key =>
    let name := data.name.getD default_name
    match validate_name_in_allowed_models (some name) allowed_models with
    | Except.error e => Except.error e
    | Except.ok () => Except.ok (name, key)

/-- allowed_models of FalAIImgGenModel (lines 31-35). -/
def falai_allowed_models : List String :=
  ["fal-ai/flux-pro", "fal-ai/flux-pro/new", "fal-ai/flux-pro/v1.1"]

/-- The default of FalAIImgGenModel.model_name (line 37). -/
def falai_default_model_name : String := "fal-ai/flux-pro"

/-- FalAIImgGenModel.__init__ (lines 44-64): api_key falls back to the
FAL_KEY environment variable via default_factory and, being a default,
is not validated by pydantic — an absent credential does not fail
construction; the model name (supplied or default) must be a member of
allowed_models, with no truthiness guard (ValueError otherwise). -/
def constructFalAI (data_api_key env_fal_key : Option String)
    (data_model_name : Option String) :
    Except ConfigError (Option String × String) :=
  let api_key := match data_api_key with
    | some k => some k
    | none => env_fal_key
  let model_name := data_model_name.getD falai_default_model_name
  if model_name ∈ falai_allowed_models then Except.ok (api_key, model_name)
  else Except.error (ConfigError.invalidModelName model_name)

/-- C9 counterexample: (i) constructing a GroqToolModel with the empty
string as model name succeeds although "" is not in the allowed-models
set — the validator's `if name and ...` truthiness guard skips the
check; (ii) constructing a FalAIImgGenModel with no credential supplied
and no FAL_KEY in the environment also succeeds.  Both contradict "in
neither case does construction succeed". -/
theorem construct_invalid_cases_succeed :
    constructLLM groq_default_name groq_allowed_models
        { api_key := some "k", name := some "" } = Except.ok ("", "k") ∧
    "" ∉ groq_allowed_models ∧
    constructFalAI none none none =
      Except.ok (none, "fal-ai/flux-pro") := by
  refine ⟨rfl, by decide, rfl⟩

/-- C9 amended: construction fails with a configuration error whenever a
non-empty default model name is not a member of the allowed-models set
(an empty or absent name bypasses the check), and — for the adapters
whose credential is a required field (GroqToolModel, CohereModel) —
whenever the credential is absent; FalAIImgGenModel rejects any
disallowed model name but falls back to the environment for its
credential. -/
theorem construct_validates_name_and_required_credential :
    (∀ (default_name : String) (allowed_models : List String) (key n : String),
      n ≠ "" → n ∉ allowed_models →
      constructLLM default_name allowed_models
          { api_key := some key, name := some n } =
        Except.error (ConfigError.invalidModelName n)) ∧
    (∀ (default_name : String) (allowed_models : List String)
        (name : Option String),
      constructLLM default_name allowed_models
          { api_key := none, name := name } =
        Except.error ConfigError.missingCredential) ∧
    (∀ (dk ek : Option String) (m : String),
      m ∉ falai_allowed_models →
      constructFalAI dk ek (some m) =
        Except.error (ConfigError.invalidModelName m)) := by
  refine ⟨?_, ?_, ?_⟩
  · intro default_name allowed_models key n hne hmem
    simp [constructLLM, validate_name_in_allowed_models, hne, hmem]
  · intro default_name allowed_models name
    rfl
  · intro dk ek m hmem
    simp [constructFalAI, hmem]

/-- Witness for C9's amended theorem at concrete inputs. -/
theorem construct_validates_name_and_required_credential_witness :
    constructLLM groq_default_name groq_allowed_models
        { api_key := some "k", name := some "bogus" } =
      Except.error (ConfigError.invalidModelName "bogus") ∧
    constructLLM cohere_default_name cohere_allowed_models
        { api_key := none, name := none } =
      Except.error ConfigError.missingCredential ∧
    constructFalAI (some "k") none (some "bogus") =
      Except.error (ConfigError.invalidModelName "bogus") := by
  refine ⟨?_, ?_, ?_⟩
  · exact construct_validates_name_and_required_credential.1
      groq_default_name groq_allowed_models "k" "bogus"
      (by decide) (by decide)
  · exact construct_validates_name_and_required_credential.2.1
      cohere_default_name cohere_allowed_models none
  · exact construct_validates_name_and_required_credential.2.2
      (some "k") none "bogus" (by decide)

end Swarmauri
